import Mathlib

/-!
Verification development for the reflection extractor of pydoc-markdown
(`src/pydoc_markdown/contrib/loaders/python.py`).

The extractor walks a lib2to3 concrete syntax tree (CST) and produces a
reflection tree of modules, classes, functions, arguments and data
attributes.  This file gives a shallow embedding of the extractor:

* text is modelled as `Str := List Char`, with the Python string
  operations used by the source (`strip`, `split`, `startswith`,
  `lstrip`, `count`, `textwrap.dedent`) re-implemented faithfully;
* the lib2to3 tree (`lib2to3.pytree.Node` / `Leaf`) is the inductive
  `PyTree`; leading trivia is the `pfx` field (the pytree attribute is
  called `prefix`; a Node inherits the pfx of its leftmost leaf);
* errors the Python code can raise (AssertionError, AttributeError,
  IndexError, RuntimeError) are the `PErr` variants of an `Except`;
* the reflection data model (module `pydoc_markdown.reflection`, which
  is not part of the sources) is modelled from the spec, section 3.
-/

/-- Python strings, modelled as lists of characters. -/
abbrev Str := List Char

/-- Shorthand turning a Lean string literal into the `Str` model. -/
def str (s : String) : Str := s.data

/-- The whitespace characters of Python `str.strip()` / `\s` (ASCII range). -/
def isPySpace (c : Char) : Bool :=
  c = ' ' ∨ c = '\t' ∨ c = '\n' ∨ c = '\x0d' ∨ c = '\x0b' ∨ c = '\x0c'

/-- Python `s.lstrip()`. -/
def pyLstrip (s : Str) : Str := s.dropWhile isPySpace

/-- Python `s.rstrip()`. -/
def pyRstrip (s : Str) : Str := (s.reverse.dropWhile isPySpace).reverse

/-- Python `s.strip()`. -/
def pyStrip (s : Str) : Str := pyRstrip (pyLstrip s)

/-- Python `s.split(sep)` for a one-character separator: always returns at
least one (possibly empty) piece. -/
def splitOnChar (sep : Char) : Str → List Str
  | [] => [[]]
  | c :: rest =>
    match splitOnChar sep rest with
    | [] => [[c]]
    | r :: rs => if c = sep then [] :: r :: rs else (c :: r) :: rs

/-- Python `'\n'.join(pieces)`. -/
def joinNL : List Str → Str
  | [] => []
  | [l] => l
  | l :: ls => l ++ '\n' :: joinNL ls

/-- Python `s.startswith(p)`. -/
def startsWith : Str → Str → Bool
  | [], _ => true
  | _ :: _, [] => false
  | p :: ps, c :: cs => p = c ∧ startsWith ps cs

/-- Python `s.count(c)` for a single character. -/
def countChar (c : Char) (s : Str) : Nat := s.count c

/-- Python slice `s[n:]`. -/
def pyDropN (n : Nat) (s : Str) : Str := s.drop n

/-- Python slice `s[:-n]` (empty when the string is shorter than `n`). -/
def pyDropLastN (n : Nat) (s : Str) : Str := (s.reverse.drop n).reverse

/-- Space or tab, the margin characters of `textwrap.dedent`. -/
def isSpaceTab (c : Char) : Bool := c = ' ' ∨ c = '\t'

/-- Longest common prefix of two strings (the inner loop of the margin
computation in `textwrap.dedent`). -/
def commonPfx : Str → Str → Str
  | a :: as, b :: bs => if a = b then a :: commonPfx as bs else []
  | _, _ => []

/-- The margin fold of `textwrap.dedent`: starting from the first indent,
`indent.startswith(margin)` keeps the margin, `margin.startswith(indent)`
replaces it, otherwise the largest common prefix is taken.  All three
cases coincide with the longest common prefix. -/
def dedentMargin : List Str → Option Str
  | [] => none
  | i :: is => some (is.foldl (fun m ind =>
      if startsWith m ind then m
      else if startsWith ind m then ind
      else commonPfx m ind) i)

/-- CPython `textwrap.dedent`, modelled line by line: lines consisting only
of spaces and tabs are first normalized to empty lines; the margin is the
common leading space-tab run of the remaining non-blank lines; the margin
is then removed from the start of every line that carries it. -/
def pyDedent (text : Str) : Str :=
  let lines := (splitOnChar '\n' text).map
    (fun l => if l ≠ [] ∧ l.all isSpaceTab then [] else l)
  let indents := lines.filterMap (fun l =>
    let w := l.takeWhile isSpaceTab
    if w.length < l.length then some w else none)
  match dedentMargin indents with
  | none => joinNL lines
  | some margin =>
    if margin = [] then joinNL lines
    else joinNL (lines.map (fun l =>
      if startsWith margin l then l.drop margin.length else l))

/-! ## The lib2to3 concrete syntax tree -/

/-- A lib2to3 parse tree: interior `Node`s carry a grammar symbol number
and children; `Leaf` tokens carry the token number, the token text, the
leading trivia (pytree attribute `prefix`) and the 1-based line number. -/
inductive PyTree where
  | node (typ : Nat) (children : List PyTree)
  | leaf (typ : Nat) (value : Str) (pfx : Str) (lineno : Nat)
deriving Repr

/-- `node.type` of pytree. -/
def PyTree.typ : PyTree → Nat
  | .node t _ => t
  | .leaf t _ _ _ => t

/-- `node.children`; a pytree Leaf exposes an empty children list. -/
def PyTree.children : PyTree → List PyTree
  | .node _ cs => cs
  | .leaf _ _ _ _ => []

/-- `node.value`, which only a Leaf has (access on a Node raises
AttributeError, hence the `Option`). -/
def PyTree.value? : PyTree → Option Str
  | .node _ _ => none
  | .leaf _ v _ _ => some v

/-- The pytree `prefix` attribute: a Leaf stores it, a Node inherits the
one of its first child (empty for a childless Node). -/
def PyTree.pfx : PyTree → Str
  | .leaf _ _ p _ => p
  | .node _ [] => []
  | .node _ (c :: _) => c.pfx

/-- pytree `get_lineno`: the line of the leftmost leaf, if any. -/
def PyTree.lineno? : PyTree → Option Nat
  | .leaf _ _ _ n => some n
  | .node _ [] => none
  | .node _ (c :: _) => c.lineno?

mutual

/-- pytree `str(node)`: every leaf contributes its trivia followed by its
token text (`Leaf.__str__ = prefix + value`, `Node.__str__` concatenates
the children). -/
def PyTree.textAll : PyTree → Str
  | .leaf _ v p _ => p ++ v
  | .node _ cs => textAllL cs

/-- Concatenation of the source text over a child list. -/
def textAllL : List PyTree → Str
  | [] => []
  | c :: cs => c.textAll ++ textAllL cs

end

/-- `str(node)` with the trivia of the very first leaf omitted. -/
def PyTree.textNoPfx : PyTree → Str
  | .leaf _ v _ _ => v
  | .node _ [] => []
  | .node _ (c :: cs) => c.textNoPfx ++ (cs.map PyTree.textAll).flatten

/-- `Parser.nodes_to_string`: concatenates the source text of the nodes,
skipping the trivia in front of the first token. -/
def nodes_to_string (nodes : List PyTree) : Str :=
  match nodes with
  | [] => []
  | c :: cs => c.textNoPfx ++ (cs.map PyTree.textAll).flatten

/-- The helper `find(predicate, iterable)` of the loader, additionally
reporting the index of the hit (the source recovers positions with
`list.index`, which finds the same element). -/
def pyFindIdx (p : PyTree → Bool) : List PyTree → Option (Nat × PyTree)
  | [] => none
  | c :: cs =>
    if p c then some (0, c)
    else (pyFindIdx p cs).map (fun x => (x.1 + 1, x.2))

/-- The node reached from `t` by the child-index path. -/
def nodeAt : PyTree → List Nat → Option PyTree
  | t, [] => some t
  | .node _ cs, i :: p =>
    match cs.get? i with
    | some c => nodeAt c p
    | none => none
  | .leaf _ _ _ _, _ :: _ => none

/-! ## Grammar symbol and token numbers (lib2to3) -/

namespace token

def NAME : Nat := 1
def NUMBER : Nat := 2
def STRING : Nat := 3
def NEWLINE : Nat := 4
def INDENT : Nat := 5
def DEDENT : Nat := 6
def LPAR : Nat := 7
def RPAR : Nat := 8
def COLON : Nat := 11
def COMMA : Nat := 12
def STAR : Nat := 16
def EQUAL : Nat := 22
def DOUBLESTAR : Nat := 36
def AT : Nat := 50
def RARROW : Nat := 55

end token

namespace syms

def file_input : Nat := 256
def arglist : Nat := 260
def argument : Nat := 261
def async_funcdef : Nat := 264
def async_stmt : Nat := 265
def classdef : Nat := 269
def decorated : Nat := 277
def decorator : Nat := 278
def decorators : Nat := 279
def dotted_name : Nat := 284
def expr_stmt : Nat := 290
def for_stmt : Nat := 294
def funcdef : Nat := 295
def import_from : Nat := 300
def import_name : Nat := 301
def parameters : Nat := 310
def simple_stmt : Nat := 317
def suite : Nat := 325
def tname : Nat := 335
def typedargslist : Nat := 338
def with_stmt : Nat := 345

end syms

/-! ## The reflection data model

Modelled from the spec: the module `pydoc_markdown.reflection` is not
among the sources; section 3 of the spec describes its entities.  Parent
back-references are replaced by tree ownership (spec section 9 endorses
this): every parser function returns the list of entities it created for
its parent, in creation order, next to the Python return value. -/

/-- Modelled from the spec: a source location, file path plus 1-based
line number (the line is absent when the node has no leaf below it). -/
structure Location where
  filename : Str
  lineno : Option Nat
deriving DecidableEq, Repr

/-- Modelled from the spec: a value object wrapping verbatim, unevaluated
source text. -/
structure Expression where
  text : Str
deriving DecidableEq, Repr

/-- Modelled from the spec: a decorator, name plus optional call text. -/
structure Decorator where
  name : Str
  call_expr : Option Expression
deriving DecidableEq, Repr

/-- Modelled from the spec: the five argument kind tags of the reflection
module (`Argument.POS` etc.). -/
inductive ArgKind where
  | POS
  | POS_REMAINDER
  | KW_SEPARATOR
  | KW_ONLY
  | KW_REMAINDER
deriving DecidableEq, Repr

/-- Modelled from the spec: one formal argument of a function. -/
structure Argument where
  name : Str
  annot : Option Expression
  default : Option Expression
  kind : ArgKind
deriving DecidableEq, Repr

/-- Modelled from the spec: the reflection entities.  `cls` stands for the
Class entity (`class` is reserved in Lean). -/
inductive Entity where
  | module (loc : Location) (name : Str) (docstring : Option Str)
      (members : List Entity)
  | cls (loc : Location) (name : Str) (docstring : Option Str)
      (bases : List Expression) (metaclass : Option Expression)
      (decorators : Option (List Decorator)) (members : List Entity)
  | func (loc : Location) (name : Str) (docstring : Option Str)
      (is_async : Bool) (decorators : List Decorator)
      (args : List Argument) (ret : Option Expression)
  | data (loc : Location) (name : Str) (docstring : Option Str)
      (expr : Expression)
deriving Repr

/-- The exceptions the extractor can raise.  An AssertionError whose
message payload is a node kind number is kept apart, because the error
taxonomy of the spec talks about what an error carries.  `fuelOut` is an
artifact of the embedding (recursion fuel); it is unreachable for the
fuel amounts used by the entry points. -/
inductive PErr where
  | assertType (t : Nat)
  | assertPlain
  | runtimeNoAdvance
  | indexError
  | attrError
  | fuelOut
deriving DecidableEq, Repr

/-! ## ListScanner -/

/-- `ListScanner`: a list with a current index. -/
structure ListScanner where
  lst : List PyTree
  idx : Nat
deriving Repr

/-- `ListScanner.current`, as an `Option` (Python raises IndexError past
the end). -/
def ListScanner.current? (s : ListScanner) : Option PyTree := s.lst.get? s.idx

/-- `ListScanner.advance()`: step the index and return the new current
element, `none` when past the end. -/
def ListScanner.advance (s : ListScanner) : ListScanner × Option PyTree :=
  let s' : ListScanner := { s with idx := s.idx + 1 }
  (s', s'.current?)

/-! ## Signature parser -/

/-- The inner helper `parse_annotated_name` of `Parser.parse_argument`:
splits a `tname` node into name and annotation expression, a plain token
into its text.  Tree objects are always truthy in Python, so the final
RuntimeError branch of the source is unreachable and does not appear. -/
def parse_annotated_name (node : PyTree) : Except PErr (Str × Option Expression) :=
  if node.typ = syms.tname then
    let sc : ListScanner := ⟨node.children, 0⟩
    match sc.current? with
    | none => Except.error PErr.indexError
    | some c0 =>
      match c0.value? with
      | none => Except.error PErr.attrError
      | some name =>
        let (sc1, n1) := sc.advance
        match n1 with
        | none => Except.error PErr.attrError
        | some c1 =>
          if c1.typ = token.COLON then
            let (_, n2) := sc1.advance
            match n2 with
            | none => Except.error PErr.attrError
            | some c2 => Except.ok (name, some ⟨nodes_to_string [c2]⟩)
          else Except.error PErr.assertPlain
  else
    match node.value? with
    | none => Except.error PErr.attrError
    | some v => Except.ok (v, none)

/-- `Parser.parse_argument`: parse one argument at the current scanner
position; the tokens after the name are inspected for an optional
`= default` clause.  Returns the argument together with the final
scanner state. -/
def parse_argument (node : PyTree) (argtype : ArgKind) (scanner : ListScanner) :
    Except PErr (Argument × ListScanner) := do
  let (name, annot) ← parse_annotated_name node
  let (sc1, n1) := scanner.advance
  match n1 with
  | some c =>
    if c.typ = token.EQUAL then
      let (sc2, n2) := sc1.advance
      match n2 with
      | none => Except.error PErr.attrError
      | some c2 =>
        let (sc3, _) := sc2.advance
        Except.ok (⟨name, annot, some ⟨nodes_to_string [c2]⟩, argtype⟩, sc3)
    else Except.ok (⟨name, annot, none, argtype⟩, sc1)
  | none => Except.ok (⟨name, annot, none, argtype⟩, sc1)

/-- The scan loop of `Parser.parse_parameters` over the children of a
`typedargslist`.  The loop is driven by `ListScanner.safe_iter` in
manual-advance mode; its stale-index check compares against the index
captured when the iteration started, which is 0 here.  `fuel` bounds the
number of iterations (every iteration advances the index, so the fuel
passed by `parse_parameters` is never exhausted). -/
def paramLoop : Nat → ListScanner → ArgKind → List Argument →
    Except PErr (List Argument)
  | 0, _, _, _ => Except.error PErr.fuelOut
  | fuel + 1, sc, argtype, acc =>
    if sc.idx < sc.lst.length then
      match sc.current? with
      | none => Except.error PErr.indexError
      | some node =>
        if node.typ = token.STAR then
          let (sc1, n1) := sc.advance
          match n1 with
          | none => Except.error PErr.attrError
          | some n =>
            if n.typ = token.COMMA then
              let acc' := acc ++ [⟨[], none, none, ArgKind.KW_SEPARATOR⟩]
              let (sc2, _) := sc1.advance
              if sc2.idx = 0 then Except.error PErr.runtimeNoAdvance
              else paramLoop fuel sc2 ArgKind.KW_ONLY acc'
            else
              match parse_argument n ArgKind.POS_REMAINDER sc1 with
              | Except.error e => Except.error e
              | Except.ok (arg, sc2) =>
                if sc2.idx = 0 then Except.error PErr.runtimeNoAdvance
                else paramLoop fuel sc2 ArgKind.KW_ONLY (acc ++ [arg])
        else if node.typ = token.DOUBLESTAR then
          let (sc1, n1) := sc.advance
          match n1 with
          | none => Except.error PErr.attrError
          | some n =>
            match parse_argument n ArgKind.KW_REMAINDER sc1 with
            | Except.error e => Except.error e
            | Except.ok (arg, sc2) =>
              if sc2.idx = 0 then Except.error PErr.runtimeNoAdvance
              else paramLoop fuel sc2 argtype (acc ++ [arg])
        else
          match parse_argument node argtype sc with
          | Except.error e => Except.error e
          | Except.ok (arg, sc1) =>
            let (sc2, _) := sc1.advance
            if sc2.idx = 0 then Except.error PErr.runtimeNoAdvance
            else paramLoop fuel sc2 argtype (acc ++ [arg])
    else Except.ok acc

/-- `Parser.parse_parameters`: dispatch over the three concrete shapes of
a parameter list (general `typedargslist`, single annotated `tname`,
empty or single plain name), then run the scan loop. -/
def parse_parameters (parameters : PyTree) : Except PErr (List Argument) :=
  if parameters.typ ≠ syms.parameters then
    Except.error (PErr.assertType parameters.typ)
  else
    let cs := parameters.children
    match pyFindIdx (fun x => x.typ = syms.typedargslist) cs with
    | some (_, arglist) =>
      paramLoop (arglist.children.length + 1) ⟨arglist.children, 0⟩
        ArgKind.POS []
    | none =>
      match pyFindIdx (fun x => x.typ = syms.tname) cs with
      | some (i, tn) =>
        match parse_argument tn ArgKind.POS ⟨cs, i⟩ with
        | Except.error e => Except.error e
        | Except.ok (arg, _) => Except.ok [arg]
      | none =>
        if cs.length = 2 then Except.ok []
        else if cs.length = 3 then
          match cs.get? 1 with
          | none => Except.error PErr.indexError
          | some c =>
            match c.value? with
            | none => Except.error PErr.attrError
            | some v => Except.ok [⟨v, none, none, ArgKind.POS⟩]
        else Except.error PErr.assertPlain

/-! ## Trivia resolver (`Parser.get_most_recent_prefix`)

The resolver needs the position of a node inside the whole tree, which the
embedding represents as the child-index path from the root.  `rp` is the
reversed path (deepest index first), so that walking to the parent is
dropping the head. -/

/-- The pytree `prefix` attribute of the node at a reversed path. -/
def pfxAtRev (root : PyTree) (rp : List Nat) : Str :=
  match nodeAt root rp.reverse with
  | some t => t.pfx
  | none => []

mutual

/-- The descent `while isinstance(node, Node) and node.children: node =
node.children[-1]` followed by `return node.prefix`: the trivia of the
rightmost descendant. -/
def rightmostPfx : PyTree → Str
  | .leaf _ _ p _ => p
  | .node _ cs => rightmostPfxL cs

/-- The trivia of the rightmost descendant of the last list element;
empty for the empty list (a childless Node has empty trivia). -/
def rightmostPfxL : List PyTree → Str
  | [] => []
  | [c] => rightmostPfx c
  | _ :: c :: cs => rightmostPfxL (c :: cs)

end

/-- Value of `rightmostPfx` under an optional node. -/
def rightmostPfxOf : Option PyTree → Str
  | none => []
  | some t => rightmostPfx t

/-- The code after the climb loop of `get_most_recent_prefix`: prefer the
trivia of the node reached, otherwise descend into the rightmost chain of
its previous sibling. -/
def gmrpAfter (root : PyTree) (rp : List Nat) : Str :=
  if pfxAtRev root rp ≠ [] then pfxAtRev root rp
  else
    match rp with
    | [] => []
    | i :: t => rightmostPfxOf (nodeAt root ((i - 1) :: t).reverse)

/-- The climb loop `while not node.prev_sibling and not node.prefix`: climb
to the parent while the node is a first child without trivia; at the tree
root return the empty string. -/
def gmrpLoop (root : PyTree) : List Nat → Str
  | [] => if pfxAtRev root [] ≠ [] then gmrpAfter root [] else []
  | i :: t =>
    if 0 < i ∨ pfxAtRev root (i :: t) ≠ [] then gmrpAfter root (i :: t)
    else gmrpLoop root t

/-- `Parser.get_most_recent_prefix`, for the node at `path` of `root`. -/
def get_most_recent_pfx (root : PyTree) (path : List Nat) : Str :=
  let rp := path.reverse
  if pfxAtRev root rp ≠ [] then pfxAtRev root rp
  else gmrpLoop root rp

/-! ## Docstring extractor -/

/-- The classification of a comment run (`doc_type` in the source). -/
inductive DocType where
  | statement
  | block
deriving DecidableEq, Repr

/-- A single quote character. -/
def squote : Char := '\''

/-- `Parser.prepare_docstring`: normalize a raw docstring.  A comment run
keeps its lines with markers stripped; a quoted literal is dedented via
`dedent_docstring`; anything else (including literals with a string
prefix letter such as r, u, f, b) yields no docstring. -/
def dedent_docstring (s : Str) : Str :=
  match splitOnChar '\n' s with
  | [] => []
  | l0 :: rest =>
    pyStrip (joinNL (pyStrip l0 :: splitOnChar '\n' (pyDedent (joinNL rest))))

/-- `Parser.prepare_docstring` (see `dedent_docstring` for the literal
normalization). -/
def prepare_docstring (s0 : Str) : Option Str :=
  let s := pyStrip s0
  if startsWith (str "#") s then
    some (pyStrip (joinNL ((splitOnChar '\n' s).map (fun line =>
      let l := pyStrip line
      if startsWith (str "#:") l then pyLstrip (l.drop 2)
      else pyLstrip (l.drop 1)))))
  else if startsWith (str "\"\"\"") s ∨ startsWith [squote, squote, squote] s then
    some (pyStrip (dedent_docstring (pyDropLastN 3 (pyDropN 3 s))))
  else if startsWith (str "\"") s ∨ startsWith [squote] s then
    some (pyStrip (dedent_docstring (pyDropLastN 1 (pyDropN 1 s))))
  else none

/-- The reversed comment-run scan of
`Parser.get_hashtag_docstring_from_prefix`: walk the trivia lines last to
first, stop at the first non-comment line once a line was collected, and
classify by the first marker seen. -/
def hashtagScan : List Str → List Str → Option DocType → List Str × Option DocType
  | [], acc, dt => (acc, dt)
  | l :: rest, acc, dt =>
    let ls := pyStrip l
    if acc ≠ [] ∧ ¬ startsWith (str "#") ls then (acc, dt)
    else
      let dt' :=
        if dt = none ∧ startsWith (str "#:") ls then some DocType.statement
        else if dt = none ∧ startsWith (str "#") ls then some DocType.block
        else dt
      let acc' := if acc ≠ [] ∨ ls ≠ [] then ls :: acc else acc
      hashtagScan rest acc' dt'

/-- `Parser.get_hashtag_docstring_from_prefix`: the comment docstring in
the trivia before the node at `path`, with its classification. -/
def get_hashtag_docstring_from_pfx (root : PyTree) (path : List Nat) :
    Option Str × Option DocType :=
  let pref := get_most_recent_pfx root path
  let (lines, dt) := hashtagScan ((splitOnChar '\n' pref).reverse) [] none
  (prepare_docstring (joinNL lines), dt)

/-- `Parser.get_statement_docstring`: only when the whitespace run at the
end of the preceding trivia contains exactly one newline, and the comment
run classifies as a statement docstring. -/
def get_statement_docstring (root : PyTree) (path : List Nat) : Option Str :=
  let pref := get_most_recent_pfx root path
  let ws := pref.reverse.takeWhile isPySpace
  if countChar '\n' ws = 1 then
    let (ds, dt) := get_hashtag_docstring_from_pfx root path
    if dt = some DocType.statement then ds else none
  else none

/-- `Parser.get_docstring_from_first_node`: the docstring of a block
(module, class or function body).  The first statement wins when it is a
plain string literal; otherwise a block-classified comment run directly
before the first node is used.  The `module_level` flag of the source is
unused there and kept for shape. -/
def get_docstring_from_first_node (root parentNode : PyTree)
    (parentPath : List Nat) (module_level : Bool) : Except PErr (Option Str) :=
  match pyFindIdx (fun x => match x with | .node _ _ => true | .leaf _ _ _ _ => false)
      parentNode.children with
  | none => Except.ok none
  | some (i, nd) =>
    let hashtag : Except PErr (Option Str) :=
      let (ds, dt) := get_hashtag_docstring_from_pfx root (parentPath ++ [i])
      Except.ok (if dt = some DocType.block then ds else none)
    if nd.typ = syms.simple_stmt then
      match nd.children.get? 0 with
      | none => Except.error PErr.indexError
      | some c0 =>
        if c0.typ = token.STRING then
          match c0.value? with
          | none => Except.error PErr.attrError
          | some v => Except.ok (prepare_docstring v)
        else hashtag
    else hashtag

/-! ## Declaration parser -/

/-- The test `not isinstance(child, Node) and child.value == '='` of
`Parser.parse_statement`: a leaf whose token text is `=`. -/
def isEqLeaf : PyTree → Bool
  | .leaf _ v _ _ => v = str "="
  | .node _ _ => false

/-- The accumulating loop of `Parser.parse_statement` over the statement
children: each `=` leaf pushes the pending segment onto the name list and
resets the expression accumulator. -/
def stmtScan : List PyTree → Bool → List (List PyTree) → List PyTree →
    Bool × List (List PyTree) × List PyTree
  | [], isA, names, expr => (isA, names, expr)
  | child :: rest, isA, names, expr =>
    if isEqLeaf child then stmtScan rest true (names ++ [expr]) []
    else stmtScan rest isA names (expr ++ [child])

/-- `Parser.parse_statement`: scan the children of an `expr_stmt` for
top-level `=` leaves; every segment before an `=` is a target name, the
trailing segment is the shared expression.  One Data entity is created
per target; the Python return value is the last one. -/
def parse_statement (fn : Str) (root stmt : PyTree) (path : List Nat) :
    Except PErr (List Entity × Option Entity) :=
  let (isA, names, expr) := stmtScan stmt.children false [] []
  if isA then
    if names.isEmpty then Except.error PErr.assertPlain
    else
      let docstring := get_statement_docstring root path
      let e : Expression := ⟨nodes_to_string expr⟩
      let loc : Location := ⟨fn, stmt.lineno?⟩
      let created := names.map (fun nm => Entity.data loc (nodes_to_string nm) docstring e)
      Except.ok (created, created.getLast?)
  else Except.ok ([], none)

/-- `Parser.name_to_string`: a dotted name joins the values of its
children, a plain token is its value. -/
def name_to_string (node : PyTree) : Except PErr Str :=
  if node.typ = syms.dotted_name then
    match node.children.mapM PyTree.value? with
    | some vs => Except.ok vs.flatten
    | none => Except.error PErr.attrError
  else
    match node.value? with
    | some v => Except.ok v
    | none => Except.error PErr.attrError

/-- `Parser.parse_decorator`. -/
def parse_decorator (node : PyTree) : Except PErr Decorator :=
  match node.children.get? 0 with
  | none => Except.error PErr.indexError
  | some c0 =>
    match c0.value? with
    | none => Except.error PErr.attrError
    | some v0 =>
      if v0 ≠ str "@" then Except.error PErr.assertPlain
      else
        match node.children.get? 1 with
        | none => Except.error PErr.indexError
        | some c1 =>
          match name_to_string c1 with
          | Except.error e => Except.error e
          | Except.ok name =>
            let call_expr := pyStrip (nodes_to_string (node.children.drop 2))
            Except.ok ⟨name, if call_expr ≠ [] then some ⟨call_expr⟩ else none⟩

/-- The loop `for child in decorator_nodes` of the decorated branch. -/
def decoratorList : List PyTree → Except PErr (List Decorator)
  | [] => Except.ok []
  | c :: rest =>
    if c.typ ≠ syms.decorator then Except.error (PErr.assertType c.typ)
    else
      match parse_decorator c with
      | Except.error e => Except.error e
      | Except.ok d => (decoratorList rest).map (fun ds => d :: ds)

/-- `Parser.get_return_annotation`: the node after a `->` token. -/
def get_return_annotation (node : PyTree) : Except PErr (Option Expression) :=
  match pyFindIdx (fun x => x.typ = token.RARROW) node.children with
  | none => Except.ok none
  | some (i, _) =>
    match node.children.get? (i + 1) with
    | none => Except.error PErr.attrError
    | some nx => Except.ok (some ⟨nodes_to_string [nx]⟩)

/-- `Parser.parse_funcdef`. -/
def parse_funcdef (fn : Str) (root node : PyTree) (path : List Nat)
    (is_async : Bool) (decorators : Option (List Decorator)) :
    Except PErr (List Entity × Option Entity) :=
  let paramsOpt := pyFindIdx (fun x => x.typ = syms.parameters) node.children
  let bodyOpt :=
    match pyFindIdx (fun x => x.typ = syms.suite) node.children with
    | some r => some r
    | none => pyFindIdx (fun x => x.typ = syms.simple_stmt) node.children
  match node.children.get? 1 with
  | none => Except.error PErr.indexError
  | some c1 =>
    match c1.value? with
    | none => Except.error PErr.attrError
    | some name =>
      match bodyOpt with
      | none => Except.error PErr.attrError
      | some (bi, bodyN) =>
        match get_docstring_from_first_node root bodyN (path ++ [bi]) false with
        | Except.error e => Except.error e
        | Except.ok docstring =>
          match paramsOpt with
          | none => Except.error PErr.attrError
          | some (_, ps) =>
            match parse_parameters ps with
            | Except.error e => Except.error e
            | Except.ok args =>
              match get_return_annotation node with
              | Except.error e => Except.error e
              | Except.ok ret =>
                let f := Entity.func ⟨fn, node.lineno?⟩ name docstring is_async
                  (decorators.getD []) args ret
                Except.ok ([f], some f)

/-- The scan of `classargs.children[::2]` in `Parser.parse_classdef`. -/
def everyOther : List PyTree → List PyTree
  | [] => []
  | [c] => [c]
  | c :: _ :: rest => c :: everyOther rest

/-- The class-header argument scan of `Parser.parse_classdef`: an
`argument` node with key `metaclass` sets the metaclass, other keyword
arguments are dropped, anything else is a base expression (rendered with
`str`, trivia included). -/
def classArgsScan : List PyTree → Option Expression → List Expression →
    Except PErr (Option Expression × List Expression)
  | [], mc, bs => Except.ok (mc, bs)
  | child :: rest, mc, bs =>
    if child.typ = syms.argument then
      match child.children.get? 0 with
      | none => Except.error PErr.indexError
      | some k =>
        match k.value? with
        | none => Except.error PErr.attrError
        | some key =>
          let v := nodes_to_string (child.children.drop 2)
          if key = str "metaclass" then classArgsScan rest (some ⟨v⟩) bs
          else classArgsScan rest mc bs
    else classArgsScan rest mc (bs ++ [⟨child.textAll⟩])

/-- The header part of `Parser.parse_classdef`: when an `arglist` node is
present, scan every other child of it for bases and the `metaclass`
keyword; a header without `arglist` (no parens, empty parens or a single
base) contributes nothing. -/
def classHeaderScan (cls_children : List PyTree) :
    Except PErr (Option Expression × List Expression) :=
  match pyFindIdx (fun x => x.typ = syms.arglist) cls_children with
  | none => Except.ok (none, [])
  | some (_, classargs) => classArgsScan (everyOther classargs.children) none []

/-- One iteration of the member loop of `Parser.parse_classdef` on the
child at index `i`, parameterized over the declaration parser `pd`.
Leaves are skipped; when no metaclass is set yet and the child yields a
Data entity named `__metaclass__` (the Python return value, which is the
most recently created entity and hence the last of the accumulated
member list), its expression rebinds the loop-local metaclass and the
entity is removed from the members (dropping the last element); the
object field is never updated.  The nested matches mirror the
short-circuit of `if metaclass is None and isinstance(member, Data) and
member.name == ...`. -/
def class_member_step
    (pd : PyTree → List Nat → Except PErr (List Entity × Option Entity))
    (suitePath : List Nat) (i : Nat) (child : PyTree)
    (mc : Option Expression) (members : List Entity) :
    Except PErr (Option Expression × List Entity) :=
  match child with
  | .leaf _ _ _ _ => Except.ok (mc, members)
  | .node t cc =>
    match pd (.node t cc) (suitePath ++ [i]) with
    | Except.error e => Except.error e
    | Except.ok (created, ret) =>
      match mc with
      | some _ => Except.ok (mc, members ++ created)
      | none =>
        match ret with
        | some (Entity.data _ dn _ de) =>
          if dn = str "__metaclass__" then
            Except.ok (some de, (members ++ created).dropLast)
          else Except.ok (mc, members ++ created)
        | _ => Except.ok (mc, members ++ created)

/-- The member loop of `Parser.parse_classdef`: fold `class_member_step`
over the suite children. -/
def parse_class_members_gen
    (pd : PyTree → List Nat → Except PErr (List Entity × Option Entity))
    (suitePath : List Nat) :
    Nat → List PyTree → Option Expression → List Entity →
    Except PErr (Option Expression × List Entity)
  | _, [], mc, members => Except.ok (mc, members)
  | i, child :: rest, mc, members =>
    match class_member_step pd suitePath i child mc members with
    | Except.error e => Except.error e
    | Except.ok (mc2, ms2) =>
      parse_class_members_gen pd suitePath (i + 1) rest mc2 ms2

/-- `Parser.parse_classdef`, parameterized over the declaration parser
used for the members: header scan, block docstring, then the member
loop.  The `Class` object is constructed before the loop with the
metaclass found in the header; the loop only rebinds the loop-local
`metaclass` variable and removes the member, and nothing writes the
rebound local back into the object, so the returned `Class` keeps the
header metaclass. -/
def parse_classdef_gen
    (pd : PyTree → List Nat → Except PErr (List Entity × Option Entity))
    (fn : Str) (root node : PyTree) (path : List Nat)
    (decorators : Option (List Decorator)) :
    Except PErr (List Entity × Option Entity) :=
  match node.children.get? 1 with
  | none => Except.error PErr.indexError
  | some c1 =>
    match c1.value? with
    | none => Except.error PErr.attrError
    | some name =>
      match classHeaderScan node.children with
      | Except.error e => Except.error e
      | Except.ok (metaclass, bases) =>
        match pyFindIdx (fun x => x.typ = syms.suite) node.children with
        | none => Except.error PErr.attrError
        | some (si, suiteN) =>
          match get_docstring_from_first_node root suiteN (path ++ [si]) false with
          | Except.error e => Except.error e
          | Except.ok docstring =>
            match parse_class_members_gen pd (path ++ [si]) 0
                suiteN.children metaclass [] with
            | Except.error e => Except.error e
            | Except.ok (_, members) =>
              let c := Entity.cls ⟨fn, node.lineno?⟩ name docstring bases
                metaclass decorators members
              Except.ok ([c], some c)

/-- `Parser.parse_declaration`: the central dispatcher over node kinds.
`fuel` bounds the recursion depth (the nesting depth of the tree bounds
it, so the entry point never exhausts it); the `decorators` argument is
`none` except for the recursive call of the decorated branch. -/
def parse_declaration : Nat → Str → PyTree → PyTree → List Nat →
    Option (List Decorator) → Except PErr (List Entity × Option Entity)
  | 0, _, _, _, _, _ => Except.error PErr.fuelOut
  | fuel + 1, fn, root, node, path, decorators =>
    if node.typ = syms.simple_stmt then
      if decorators.getD [] ≠ [] then Except.error PErr.assertPlain
      else
        match node.children.get? 0 with
        | none => Except.error PErr.indexError
        | some stmt =>
          if stmt.typ = syms.import_name ∨ stmt.typ = syms.import_from then
            Except.ok ([], none)
          else if stmt.typ = syms.expr_stmt then
            parse_statement fn root stmt (path ++ [0])
          else Except.ok ([], none)
    else if node.typ = syms.funcdef then
      parse_funcdef fn root node path false decorators
    else if node.typ = syms.classdef then
      parse_classdef_gen (fun n p => parse_declaration fuel fn root n p none)
        fn root node path decorators
    else if node.typ = syms.async_stmt ∨ node.typ = syms.async_funcdef then
      match node.children.get? 1 with
      | none => Except.error PErr.indexError
      | some child =>
        if child.typ = syms.funcdef then
          parse_funcdef fn root child (path ++ [1]) true decorators
        else Except.ok ([], none)
    else if node.typ = syms.decorated then
      if node.children.length ≠ 2 then Except.error PErr.assertPlain
      else
        match node.children.get? 0 with
        | none => Except.error PErr.indexError
        | some c0 =>
          let dns? : Except PErr (List PyTree) :=
            if c0.typ = syms.decorator then Except.ok [c0]
            else if c0.typ = syms.decorators then Except.ok c0.children
            else Except.error (PErr.assertType c0.typ)
          match dns? with
          | Except.error e => Except.error e
          | Except.ok dns =>
            match decoratorList dns with
            | Except.error e => Except.error e
            | Except.ok ds =>
              match node.children.get? 1 with
              | none => Except.error PErr.indexError
              | some c1 => parse_declaration fuel fn root c1 (path ++ [1]) (some ds)
    else Except.ok ([], none)

/-- `Parser.parse_classdef` with recursion fuel for the member
declarations.  The classdef branch of `parse_declaration` at fuel
`fuel + 1` is this function at fuel `fuel`, definitionally. -/
def parse_classdef (fuel : Nat) (fn : Str) (root node : PyTree)
    (path : List Nat) (decorators : Option (List Decorator)) :
    Except PErr (List Entity × Option Entity) :=
  parse_classdef_gen (fun n p => parse_declaration fuel fn root n p none)
    fn root node path decorators

/-- The member loop of `Parser.parse_classdef` at a given fuel. -/
def parse_class_members (fuel : Nat) (fn : Str) (root : PyTree)
    (suitePath : List Nat) (i : Nat) (cs : List PyTree)
    (mc : Option Expression) (members : List Entity) :
    Except PErr (Option Expression × List Entity) :=
  parse_class_members_gen (fun n p => parse_declaration fuel fn root n p none)
    suitePath i cs mc members

/-- The module-level loop of `Parser.parse`: every child of the tree root
is dispatched (leaves fall through the dispatcher and create nothing). -/
def parseTop (fuel : Nat) (fn : Str) (root : PyTree) :
    List PyTree → Nat → List Entity → Except PErr (List Entity)
  | [], _, acc => Except.ok acc
  | c :: rest, i, acc =>
    match parse_declaration fuel fn root c [i] none with
    | Except.error e => Except.error e
    | Except.ok (created, _) => parseTop fuel fn root rest (i + 1) (acc ++ created)

/-- `os.path.basename` for the module-name fallback. -/
def pyBasename (p : Str) : Str := (p.reverse.takeWhile (· ≠ '/')).reverse

/-- `os.path.splitext(b)[0]`: cut at the last dot, unless every character
before it is a dot. -/
def pySplitextRoot (b : Str) : Str :=
  let d := (b.reverse.takeWhile (· ≠ '.')).length
  if d = b.length then b
  else
    let stem := b.take (b.length - d - 1)
    if stem.any (· ≠ '.') then stem else b

mutual

/-- A computable size of a tree, used as recursion fuel by the entry
point: it strictly exceeds the nesting depth. -/
def PyTree.size : PyTree → Nat
  | .leaf _ _ _ _ => 1
  | .node _ cs => 1 + sizeL cs

/-- Total size of a child list. -/
def sizeL : List PyTree → Nat
  | [] => 0
  | c :: cs => c.size + sizeL cs

end

/-- The per-instance state of `Parser`: the only attribute the class ever
stores is `self.filename`, assigned at the start of `parse`. -/
structure ParserState where
  filename : Str
deriving Repr

/-- `Parser.parse`: the entry point.  It overwrites the instance state
with the given file name, derives a module name when none is given,
extracts the module docstring and dispatches every top-level child.  The
recursion fuel `sizeOf ast` strictly bounds the nesting depth of the
tree, so the `fuelOut` branch is unreachable. -/
def Parser.parse (self : ParserState) (ast : PyTree) (filename : Str)
    (module_name : Option Str) : Except PErr Entity :=
  let self' : ParserState := ⟨filename⟩
  let mn :=
    match module_name with
    | some m => m
    | none => pySplitextRoot (pyBasename self'.filename)
  match
    (if ¬ ast.children.isEmpty then get_docstring_from_first_node ast ast [] true
     else Except.ok none) with
  | Except.error e => Except.error e
  | Except.ok docstring =>
    match parseTop ast.size self'.filename ast ast.children 0 [] with
    | Except.error e => Except.error e
    | Except.ok members =>
      Except.ok (Entity.module ⟨self'.filename, ast.lineno?⟩ mn docstring members)

/-! ## `ListScanner.safe_iter` in manual-advance mode (for the scanner
claims).  A run of the generator is modelled by the trace of the consumer:
`advs` lists how many times the consumer calls `advance` during each step
of the iteration (an empty remainder means the consumer stops).  The
stale-index check of the source compares against the index captured when
the iteration started, not against the index of the current step. -/

def safeIterManual {α : Type} (lst : List α) (captured : Nat) :
    Nat → List Nat → Except PErr (List α)
  | idx, advs =>
    if h : idx < lst.length then
      match advs with
      | [] => Except.ok []
      | a :: rest =>
        let yielded := lst.get ⟨idx, h⟩
        let idx' := idx + a
        if idx' = captured then Except.error PErr.runtimeNoAdvance
        else
          match safeIterManual lst captured idx' rest with
          | Except.error e => Except.error e
          | Except.ok ys => Except.ok (yielded :: ys)
    else Except.ok []

/-- A manual-advance `safe_iter` run started on a fresh iteration at
`startIdx` (the captured index is the index at the first step). -/
def safe_iter_manual {α : Type} (lst : List α) (startIdx : Nat)
    (advs : List Nat) : Except PErr (List α) :=
  safeIterManual lst startIdx startIdx advs

/-! ## Shared string lemmas -/

theorem pyLstrip_cons_neg {c : Char} (t : Str) (h : ¬ isPySpace c) :
    pyLstrip (c :: t) = c :: t := by
  simp [pyLstrip, List.dropWhile_cons, h]

theorem pyRstrip_cons_neg {c : Char} (t : Str) (h : ¬ isPySpace c) :
    pyRstrip (c :: t) = c :: pyRstrip t := by
  simp only [pyRstrip, List.reverse_cons, List.dropWhile_append]
  by_cases hall : (t.reverse.dropWhile isPySpace).isEmpty
  · simp [hall, List.dropWhile_cons, h, List.isEmpty_iff.mp hall]
  · simp [hall]

theorem pyStrip_cons_neg {c : Char} (t : Str) (h : ¬ isPySpace c) :
    pyStrip (c :: t) = c :: pyRstrip t := by
  simp [pyStrip, pyLstrip_cons_neg t h, pyRstrip_cons_neg t h]

theorem pyLstrip_ws_append {ws : Str} (l : Str) (h : ws.all isPySpace) :
    pyLstrip (ws ++ l) = pyLstrip l := by
  induction ws with
  | nil => simp
  | cons c cs ih =>
    simp only [List.all_cons, Bool.and_eq_true] at h
    simp only [List.cons_append, pyLstrip, List.dropWhile_cons, h.1, if_true]
    exact ih h.2

theorem startsWith_cons_ne {p c : Char} (ps cs : Str) (h : p ≠ c) :
    startsWith (p :: ps) (c :: cs) = false := by
  simp [startsWith, h]

/-! ## C9: determinism of the entry point -/

/-- C9: re-parsing the same tree with two independent Parser instances
(arbitrary prior instance states) yields structurally equal reflection
trees: `Parser.parse` overwrites its only instance attribute before use,
so the result depends only on the tree, the file name and the module
name. -/
theorem c9_parse_deterministic (st1 st2 : ParserState) (ast : PyTree)
    (filename : Str) (module_name : Option Str) :
    Parser.parse st1 ast filename module_name =
      Parser.parse st2 ast filename module_name := rfl

/-! ## C6: the stale-index check of `safe_iter` -/

/-- C6: the claim says a manual-advance `safe_iter` raises whenever the
consumer fails to advance during a step.  The check of the source
compares against the index captured when the iteration started, so it
only fires on a step that leaves the index at its initial value: on the
trace `[1, 0, 0]` over a three-element list the second and third steps do
not advance, yet the generator yields the element at index 1 twice more
instead of raising; only the trace `[0]`, stalled at the initial index,
raises. -/
theorem c6_safe_iter_stale_index_not_detected :
    safe_iter_manual [10, 20, 30] 0 [1, 0, 0] = Except.ok [10, 20, 20] ∧
    safe_iter_manual [10, 20, 30] 0 [0] = Except.error PErr.runtimeNoAdvance :=
  ⟨rfl, rfl⟩

/-! ## C1: keyword-only parameters after `*args` -/

/-- The lib2to3 `parameters` subtree of
`def f(a, b=1, *args, c, d=2, **kwargs)` (token numbers, texts, trivia
and line numbers exactly as the external parser produces them). -/
def c1Params : PyTree :=
  PyTree.node syms.parameters
    [PyTree.leaf token.LPAR (str "(") (str "") 1,
     PyTree.node syms.typedargslist
       [PyTree.leaf token.NAME (str "a") (str "") 1,
        PyTree.leaf token.COMMA (str ",") (str "") 1,
        PyTree.leaf token.NAME (str "b") (str " ") 1,
        PyTree.leaf token.EQUAL (str "=") (str "") 1,
        PyTree.leaf token.NUMBER (str "1") (str "") 1,
        PyTree.leaf token.COMMA (str ",") (str "") 1,
        PyTree.leaf token.STAR (str "*") (str " ") 1,
        PyTree.leaf token.NAME (str "args") (str "") 1,
        PyTree.leaf token.COMMA (str ",") (str "") 1,
        PyTree.leaf token.NAME (str "c") (str " ") 1,
        PyTree.leaf token.COMMA (str ",") (str "") 1,
        PyTree.leaf token.NAME (str "d") (str " ") 1,
        PyTree.leaf token.EQUAL (str "=") (str "") 1,
        PyTree.leaf token.NUMBER (str "2") (str "") 1,
        PyTree.leaf token.COMMA (str ",") (str "") 1,
        PyTree.leaf token.DOUBLESTAR (str "**") (str " ") 1,
        PyTree.leaf token.NAME (str "kwargs") (str "") 1],
     PyTree.leaf token.RPAR (str ")") (str "") 1]

/-- C1: the claim expects the kind sequence
`[POS, POS, POS_REMAINDER, KW_ONLY, KW_ONLY, KW_REMAINDER]` for
`(a, b=1, *args, c, d=2, **kwargs)`.  The code does not skip the comma on
which `parse_argument` rests after the `*`/`**` branches, so the scan
falls out of step: it produces eight arguments, three of them named `,`
or `=`, drops `c` and `d` entirely, and tags `kwargs` as keyword-only
instead of keyword-variadic-remainder. -/
theorem c1_params_actual_output :
    parse_parameters c1Params = Except.ok
      [⟨str "a", none, none, ArgKind.POS⟩,
       ⟨str "b", none, some ⟨str "1"⟩, ArgKind.POS⟩,
       ⟨str "args", none, none, ArgKind.POS_REMAINDER⟩,
       ⟨str ",", none, none, ArgKind.KW_ONLY⟩,
       ⟨str ",", none, none, ArgKind.KW_ONLY⟩,
       ⟨str "=", none, none, ArgKind.KW_ONLY⟩,
       ⟨str ",", none, none, ArgKind.KW_ONLY⟩,
       ⟨str "kwargs", none, none, ArgKind.KW_ONLY⟩] := rfl

/-! ## C5: failure semantics of the declaration dispatcher -/

/-- The tree of `async with x: pass`: an `async_stmt` whose second child
is not a `funcdef` (here a `with_stmt`). -/
def c5AsyncWith : PyTree :=
  PyTree.node syms.async_stmt
    [PyTree.leaf token.NAME (str "async") (str "") 1,
     PyTree.node syms.with_stmt
       [PyTree.leaf token.NAME (str "with") (str " ") 1,
        PyTree.leaf token.NAME (str "x") (str " ") 1,
        PyTree.leaf token.COLON (str ":") (str "") 1]]

/-- C5 counterexample: the claim says an arrangement the extractor does
not recognize as valid for its declaration kind fails fast with an error
carrying kind and location.  An `async` wrapper around a non-function is
such an arrangement, yet `parse_declaration` returns successfully,
producing no entity and no error. -/
theorem c5_unrecognized_shape_silently_ignored :
    parse_declaration 5 (str "a.py") c5AsyncWith c5AsyncWith [] none =
      Except.ok ([], none) := rfl

/-- C5 amended: within a recognized dispatch arm the code does fail fast,
but the assertion carries only the offending node kind, never a source
location: a `decorated` node whose first child is neither a single
decorator nor a decorator list aborts with an AssertionError whose
payload is that child kind (the `PErr` value has no location component). -/
theorem c5_decorated_bad_child_asserts_kind (fuel : Nat) (fn : Str)
    (root : PyTree) (path : List Nat) (c0 c1 : PyTree) (t : Nat)
    (h0 : c0.typ = t) (hd : t ≠ syms.decorator) (hds : t ≠ syms.decorators) :
    parse_declaration (fuel + 1) fn root
      (PyTree.node syms.decorated [c0, c1]) path none =
      Except.error (PErr.assertType t) := by
  subst h0
  cases c0 <;>
    simp_all [parse_declaration, PyTree.typ, PyTree.children, syms.decorated,
      syms.simple_stmt, syms.funcdef, syms.classdef, syms.async_stmt,
      syms.async_funcdef, syms.decorator, syms.decorators]

/-- C5 amended, witness: a concrete decorated node whose first child is
an `argument` node. -/
theorem c5_decorated_bad_child_witness :
    parse_declaration 3 (str "a.py")
      (PyTree.leaf token.NAME (str "x") (str "") 1)
      (PyTree.node syms.decorated
        [PyTree.node syms.argument [],
         PyTree.leaf token.NAME (str "x") (str "") 1]) [] none =
      Except.error (PErr.assertType syms.argument) :=
  c5_decorated_bad_child_asserts_kind 2 (str "a.py")
    (PyTree.leaf token.NAME (str "x") (str "") 1) []
    (PyTree.node syms.argument [])
    (PyTree.leaf token.NAME (str "x") (str "") 1)
    syms.argument rfl (by decide) (by decide)

/-! ## C10: string literals with a prefix letter -/

theorem str_hash_eq : str "#" = ['#'] := rfl

theorem str_hashcolon_eq : str "#:" = ['#', ':'] := rfl

theorem str_dq3_eq : str "\"\"\"" = ['"', '"', '"'] := rfl

theorem str_dq1_eq : str "\"" = ['"'] := rfl

/-- `prepare_docstring` yields no docstring whenever the (stripped)
literal text begins with any character other than a quote or the comment
marker; in particular for string-prefix letters such as r, u, f, b. -/
theorem prepare_docstring_non_quote {c : Char} (vr : Str)
    (hns : ¬ isPySpace c) (hq : c ≠ '"') (hsq : c ≠ squote) (hh : c ≠ '#') :
    prepare_docstring (c :: vr) = none := by
  simp only [prepare_docstring, pyStrip_cons_neg vr hns, str_hash_eq,
    str_dq3_eq, str_dq1_eq]
  simp [startsWith_cons_ne _ _ (Ne.symm hh), startsWith_cons_ne _ _ (Ne.symm hq),
    startsWith_cons_ne _ _ (Ne.symm hsq)]

/-- The suite of a block whose first statement is a single string-literal
expression statement (leaf texts and positions as lib2to3 produces them,
the literal text and all trivia left free). -/
def c10Suite (v p1 p2 p3 p4 p5 : Str) (l1 l2 l3 l4 l5 : Nat) : PyTree :=
  PyTree.node syms.suite
    [PyTree.leaf token.NEWLINE (str "\n") p1 l1,
     PyTree.leaf token.INDENT (str "  ") p2 l2,
     PyTree.node syms.simple_stmt
       [PyTree.leaf token.STRING v p3 l3,
        PyTree.leaf token.NEWLINE (str "\n") p4 l4],
     PyTree.leaf token.DEDENT [] p5 l5]

/-- C10: a first-statement string literal carrying a string prefix
character (r, u, f, b, ... - any non-quote, non-marker, non-space first
character) produces no block docstring: the normalization only recognizes
literals that begin directly with a quote or a comment marker. -/
theorem c10_prefixed_literal_yields_no_docstring (root : PyTree)
    (parentPath : List Nat) (c : Char) (vr p1 p2 p3 p4 p5 : Str)
    (l1 l2 l3 l4 l5 : Nat)
    (hns : ¬ isPySpace c) (hq : c ≠ '"') (hsq : c ≠ squote) (hh : c ≠ '#') :
    get_docstring_from_first_node root
      (c10Suite (c :: vr) p1 p2 p3 p4 p5 l1 l2 l3 l4 l5) parentPath false =
      Except.ok none := by
  simp [get_docstring_from_first_node, c10Suite, pyFindIdx, PyTree.typ,
    PyTree.children, PyTree.value?, syms.simple_stmt, token.STRING,
    prepare_docstring_non_quote vr hns hq hsq hh]

/-- C10 witness: the literal `r"""doc"""`. -/
theorem c10_witness :
    get_docstring_from_first_node (PyTree.node syms.file_input [])
      (c10Suite ('r' :: str "\"\"\"doc\"\"\"") [] [] [] [] [] 1 2 2 2 3) [] false =
      Except.ok none :=
  c10_prefixed_literal_yields_no_docstring (PyTree.node syms.file_input []) []
    'r' (str "\"\"\"doc\"\"\"") [] [] [] [] [] 1 2 2 2 3
    (by decide) (by decide) (by decide) (by decide)

/-! ## C7: the trivia resolver against its specification -/

/-- The trivia-resolver algorithm as the spec words it: return the trivia
of the node itself when non-empty; otherwise climb through ancestors that
are first children, stopping as soon as trivia is found (returning it) or
the root is reached (returning the empty string); at the first
ancestor-or-self with a previous sibling, return the trivia of the
rightmost descendant of that sibling.  Stated over the reversed
child-index path. -/
def triviaClimbSpec (root : PyTree) : List Nat → Str
  | [] => if pfxAtRev root [] ≠ [] then pfxAtRev root [] else []
  | i :: t =>
    if pfxAtRev root (i :: t) ≠ [] then pfxAtRev root (i :: t)
    else if 0 < i then rightmostPfxOf (nodeAt root ((i - 1) :: t).reverse)
    else triviaClimbSpec root t

/-- The spec algorithm over an ordinary (root-first) path. -/
def triviaResolverSpec (root : PyTree) (path : List Nat) : Str :=
  triviaClimbSpec root path.reverse

theorem gmrpLoop_eq_climbSpec (root : PyTree) :
    ∀ rp, gmrpLoop root rp = triviaClimbSpec root rp := by
  intro rp
  induction rp with
  | nil =>
    by_cases h : pfxAtRev root [] = [] <;>
      simp [gmrpLoop, gmrpAfter, triviaClimbSpec, h]
  | cons i t ih =>
    by_cases hp : pfxAtRev root (i :: t) = []
    · by_cases hi : 0 < i
      · simp [gmrpLoop, gmrpAfter, triviaClimbSpec, hp, hi]
      · simp [gmrpLoop, gmrpAfter, triviaClimbSpec, hp, hi, ih]
    · simp [gmrpLoop, gmrpAfter, triviaClimbSpec, hp]

/-- C7: `get_most_recent_prefix` computes exactly the algorithm the spec
describes (own trivia first, then the first-child climb, then the
rightmost descendant of the previous sibling; empty at the root). -/
theorem c7_trivia_resolver_matches_spec (root : PyTree) (path : List Nat) :
    get_most_recent_pfx root path = triviaResolverSpec root path := by
  unfold get_most_recent_pfx triviaResolverSpec
  by_cases h : pfxAtRev root path.reverse = []
  · simpa [h] using gmrpLoop_eq_climbSpec root path.reverse
  · rcases hrp : path.reverse with _ | ⟨i, t⟩ <;>
      rw [hrp] at h <;> simp [triviaClimbSpec, h]

/-! ## C4: chained assignment targets -/

/-- The segments of a child list between its `=` leaves (the `=` leaves
removed); always non-empty. -/
def eqSegments : List PyTree → List (List PyTree)
  | [] => [[]]
  | c :: rest =>
    match eqSegments rest with
    | [] => [[c]]
    | s :: ss => if isEqLeaf c then [] :: s :: ss else (c :: s) :: ss

/-- Prepend a pending segment onto the first segment of a segment list. -/
def consFirst (e : List PyTree) : List (List PyTree) → List (List PyTree)
  | [] => [e]
  | s :: ss => (e ++ s) :: ss

theorem eqSegments_ne_nil (cs : List PyTree) : eqSegments cs ≠ [] := by
  cases cs with
  | nil => simp [eqSegments]
  | cons c rest =>
    simp only [eqSegments]
    rcases eqSegments rest with _ | ⟨s, ss⟩
    · simp
    · by_cases h : isEqLeaf c <;> simp [h]

theorem stmtScan_spec (cs : List PyTree) : ∀ (isA : Bool)
    (names : List (List PyTree)) (expr : List PyTree),
    stmtScan cs isA names expr =
      (isA || cs.any isEqLeaf,
       names ++ (consFirst expr (eqSegments cs)).dropLast,
       (consFirst expr (eqSegments cs)).getLast?.getD []) := by
  induction cs with
  | nil => intro isA names expr; simp [stmtScan, eqSegments, consFirst]
  | cons c rest ih =>
    intro isA names expr
    rcases hS : eqSegments rest with _ | ⟨s, ss⟩
    · exact absurd hS (eqSegments_ne_nil rest)
    · by_cases hc : isEqLeaf c <;>
        simp [stmtScan, hc, ih, eqSegments, hS, consFirst, List.append_assoc]

/-- The count of `=` leaves forces at least two segments. -/
theorem eqSegments_len_ge_two (cs : List PyTree) (h : cs.any isEqLeaf = true) :
    2 ≤ (eqSegments cs).length := by
  induction cs with
  | nil => simp at h
  | cons c rest ih =>
    rcases hS : eqSegments rest with _ | ⟨s, ss⟩
    · exact absurd hS (eqSegments_ne_nil rest)
    · simp only [List.any_cons, Bool.or_eq_true] at h
      by_cases hc : isEqLeaf c
      · simp [eqSegments, hS, hc]
      · rcases h with h | h
        · exact absurd h hc
        · have := ih h
          rw [hS] at this
          simp only [eqSegments, hS, hc, if_false]
          simpa using this

/-- C4: an expression statement with at least one top-level `=` leaf
produces one Data entity per segment before an `=` (in order), all
sharing one Expression built from the text of the trailing segment and
one statement docstring, and returns the last of them; a statement with
no top-level `=` leaf produces no Data entity and returns None. -/
theorem c4_parse_statement_chained_targets (fn : Str) (root stmt : PyTree)
    (path : List Nat) :
    parse_statement fn root stmt path =
      (if stmt.children.any isEqLeaf then
        Except.ok
          (((eqSegments stmt.children).dropLast).map (fun nm =>
              Entity.data ⟨fn, stmt.lineno?⟩ (nodes_to_string nm)
                (get_statement_docstring root path)
                ⟨nodes_to_string (((eqSegments stmt.children).getLast?).getD [])⟩),
           (((eqSegments stmt.children).dropLast).map (fun nm =>
              Entity.data ⟨fn, stmt.lineno?⟩ (nodes_to_string nm)
                (get_statement_docstring root path)
                ⟨nodes_to_string (((eqSegments stmt.children).getLast?).getD [])⟩)).getLast?)
      else Except.ok ([], none)) := by
  have hcf : consFirst [] (eqSegments stmt.children) = eqSegments stmt.children := by
    rcases hS : eqSegments stmt.children with _ | ⟨s, ss⟩
    · exact absurd hS (eqSegments_ne_nil _)
    · simp [consFirst]
  by_cases h : stmt.children.any isEqLeaf
  · have hlen := eqSegments_len_ge_two stmt.children h
    have hne : ((eqSegments stmt.children).dropLast).isEmpty = false := by
      rcases hS : eqSegments stmt.children with _ | ⟨s, ss⟩
      · exact absurd hS (eqSegments_ne_nil _)
      · rcases ss with _ | ⟨s2, ss2⟩
        · rw [hS] at hlen; simp at hlen
        · simp
    simp only [parse_statement, stmtScan_spec, hcf, Bool.false_or, h, if_true,
      hne, Bool.false_eq_true]
    simp [hne]
  · simp only [parse_statement, stmtScan_spec, hcf, Bool.false_or,
      Bool.not_eq_true] at *
    simp [h]

/-! ## C8: triple-quoted docstring normalization -/

theorem dropWhile_head_not {p : Char → Bool} {l t : Str} {c : Char}
    (h : l.dropWhile p = c :: t) : p c = false := by
  induction l with
  | nil => simp at h
  | cons a as ih =>
    by_cases hp : p a
    · rw [List.dropWhile_cons, if_pos hp] at h; exact ih h
    · rw [List.dropWhile_cons, if_neg hp] at h
      injection h with h1 _
      rw [← h1]
      simpa using hp

theorem dropWhile_idem {p : Char → Bool} (l : Str) :
    (l.dropWhile p).dropWhile p = l.dropWhile p := by
  rcases h : l.dropWhile p with _ | ⟨c, t⟩
  · simp
  · have := dropWhile_head_not h
    simp [List.dropWhile_cons, this]

theorem pyRstrip_idem (l : Str) : pyRstrip (pyRstrip l) = pyRstrip l := by
  simp [pyRstrip, List.reverse_reverse, dropWhile_idem]

/-- A strip result is a fixed point of the left strip. -/
theorem pyLstrip_pyStrip_fix (l : Str) :
    pyLstrip (pyStrip l) = pyStrip l := by
  rcases hy : pyLstrip l with _ | ⟨c, t⟩
  · rw [pyStrip, hy]; rfl
  · have hc : isPySpace c = false := dropWhile_head_not hy
    unfold pyStrip
    rw [hy, pyRstrip_cons_neg t (by simp [hc]),
      pyLstrip_cons_neg _ (by simp [hc])]

theorem pyStrip_idem (l : Str) : pyStrip (pyStrip l) = pyStrip l := by
  conv_lhs => rw [pyStrip, pyLstrip_pyStrip_fix]
  show pyRstrip (pyRstrip (pyLstrip l)) = _
  rw [pyRstrip_idem]
  rfl

theorem splitOnChar_ne_nil (sep : Char) (s : Str) : splitOnChar sep s ≠ [] := by
  cases s with
  | nil => simp [splitOnChar]
  | cons c rest =>
    simp only [splitOnChar]
    rcases splitOnChar sep rest with _ | ⟨r, rs⟩
    · simp
    · by_cases h : c = sep <;> simp [h]

theorem pyStrip_dedent_docstring (s : Str) :
    pyStrip (dedent_docstring s) = dedent_docstring s := by
  unfold dedent_docstring
  rcases h : splitOnChar '\n' s with _ | ⟨l0, rest⟩
  · simp [pyStrip, pyLstrip, pyRstrip]
  · exact pyStrip_idem _

theorem joinNL_cons_ne_nil (a : Str) {S : List Str} (h : S ≠ []) :
    joinNL (a :: S) = a ++ '\n' :: joinNL S := by
  cases S with
  | nil => exact absurd rfl h
  | cons s ss => rfl

theorem joinNL_splitOnChar (s : Str) : joinNL (splitOnChar '\n' s) = s := by
  induction s with
  | nil => rfl
  | cons c rest ih =>
    rcases h : splitOnChar '\n' rest with _ | ⟨r, rs⟩
    · exact absurd h (splitOnChar_ne_nil _ _)
    · rw [h] at ih
      by_cases hc : c = '\n'
      · subst hc
        have hsp : splitOnChar '\n' ('\n' :: rest) = [] :: r :: rs := by
          simp [splitOnChar, h]
        rw [hsp, joinNL_cons_ne_nil _ (by simp), ih]
        rfl
      · have hsp : splitOnChar '\n' (c :: rest) = (c :: r) :: rs := by
          simp [splitOnChar, h, hc]
        rw [hsp]
        cases rs with
        | nil => simp only [joinNL] at ih ⊢; rw [ih]
        | cons r2 rs2 =>
          rw [joinNL_cons_ne_nil _ (by simp)] at ih
          rw [joinNL_cons_ne_nil _ (by simp), List.cons_append, ih]

theorem pyRstrip_append_space (x : Str) {c : Char} (h : isPySpace c = true) :
    pyRstrip (x ++ [c]) = pyRstrip x := by
  simp [pyRstrip, List.reverse_append, List.dropWhile_cons, h]

theorem pyStrip_append_nl (l0 : Str) :
    pyStrip (pyStrip l0 ++ ['\n']) = pyStrip l0 := by
  rcases hy : pyStrip l0 with _ | ⟨c, t⟩
  · rfl
  · have hLy := pyLstrip_pyStrip_fix l0
    rw [hy] at hLy
    have hc : isPySpace c = false := dropWhile_head_not hLy
    have hR : pyRstrip (pyStrip l0) = pyStrip l0 := by
      rw [pyStrip]; exact pyRstrip_idem _
    rw [hy] at hR
    calc pyStrip (c :: t ++ ['\n'])
        = pyRstrip (pyLstrip (c :: (t ++ ['\n']))) := rfl
      _ = pyRstrip (c :: (t ++ ['\n'])) := by
          rw [pyLstrip_cons_neg _ (by simp [hc])]
      _ = pyRstrip (c :: t) := pyRstrip_append_space (c :: t) (by decide)
      _ = c :: t := hR

/-- The normalization of a quoted literal body as the claim words it: the
stripped first line, joined with the dedented remaining lines, the whole
result trimmed. -/
def docstringNormalizeSpec (core : Str) : Str :=
  match splitOnChar '\n' core with
  | [] => []
  | l0 :: rest =>
    if rest.isEmpty then pyStrip l0
    else pyStrip (pyStrip l0 ++ '\n' :: pyDedent (joinNL rest))

/-- `dedent_docstring` (strip the first line, dedent the joined tail,
split it back, join everything, strip) equals the direct formulation of
the spec. -/
theorem dedent_docstring_eq_spec (core : Str) :
    dedent_docstring core = docstringNormalizeSpec core := by
  unfold dedent_docstring docstringNormalizeSpec
  rcases h : splitOnChar '\n' core with _ | ⟨l0, rest⟩
  · rfl
  · cases rest with
    | nil =>
      show pyStrip (joinNL (pyStrip l0 :: splitOnChar '\n' (pyDedent (joinNL [])))) = _
      have h1 : pyDedent (joinNL ([] : List Str)) = [] := rfl
      rw [h1]
      show pyStrip (joinNL [pyStrip l0, []]) = _
      have h2 : joinNL [pyStrip l0, []] = pyStrip l0 ++ ['\n'] := by
        rw [joinNL_cons_ne_nil _ (by simp)]; rfl
      rw [h2, pyStrip_append_nl]
      simp
    | cons r1 rrest =>
      have hne : splitOnChar '\n' (pyDedent (joinNL (r1 :: rrest))) ≠ [] :=
        splitOnChar_ne_nil _ _
      show pyStrip (joinNL (pyStrip l0 ::
          splitOnChar '\n' (pyDedent (joinNL (r1 :: rrest))))) =
        if (r1 :: rrest).isEmpty = true then pyStrip l0
        else pyStrip (pyStrip l0 ++ '\n' :: pyDedent (joinNL (r1 :: rrest)))
      rw [joinNL_cons_ne_nil _ hne, joinNL_splitOnChar]
      simp

theorem startsWith_cons_elim {p : Char} {ps s : Str}
    (h : startsWith (p :: ps) s = true) :
    ∃ t, s = p :: t ∧ startsWith ps t = true := by
  cases s with
  | nil => simp [startsWith] at h
  | cons c cs =>
    simp only [startsWith, Bool.decide_and, Bool.and_eq_true,
      decide_eq_true_eq] at h
    exact ⟨cs, by rw [h.1], h.2⟩

/-- C8: for a triple-quoted docstring literal, the extracted docstring is
the stripped first line joined with the dedented remaining lines, the
whole result trimmed.  The last two hypotheses are the shape conditions
of the claim (first line carries text, remaining lines are indented);
the equation holds for every triple-quoted literal. -/
theorem c8_triple_quoted_docstring (s : Str)
    (h : startsWith (str "\"\"\"") (pyStrip s) = true)
    (hfl : pyStrip ((splitOnChar '\n'
        (pyDropLastN 3 (pyDropN 3 (pyStrip s)))).headI) ≠ [])
    (hind : ∀ l ∈ (splitOnChar '\n' (pyDropLastN 3 (pyDropN 3 (pyStrip s)))).tail,
        l = [] ∨ l.head? = some ' ' ∨ l.head? = some '\t') :
    prepare_docstring s =
      some (docstringNormalizeSpec (pyDropLastN 3 (pyDropN 3 (pyStrip s)))) := by
  rw [str_dq3_eq] at h
  obtain ⟨t1, ht1, h1⟩ := startsWith_cons_elim h
  obtain ⟨t2, ht2, h2⟩ := startsWith_cons_elim h1
  obtain ⟨t3, ht3, _⟩ := startsWith_cons_elim h2
  have hs : pyStrip s = '"' :: '"' :: '"' :: t3 := by rw [ht1, ht2, ht3]
  unfold prepare_docstring
  rw [str_hash_eq, str_dq3_eq, str_dq1_eq]
  simp only [hs, startsWith_cons_ne _ _ (show '#' ≠ '"' by decide),
    Bool.false_eq_true, if_false]
  have htrip : startsWith ['"', '"', '"'] ('"' :: '"' :: '"' :: t3) = true := by
    simp [startsWith]
  simp only [htrip, Bool.true_or, if_true]
  rw [← hs, pyStrip_dedent_docstring, dedent_docstring_eq_spec]
  simp

/-- C8 witness: a literal whose first line carries text and whose
remaining lines are indented. -/
theorem c8_witness :
    prepare_docstring (str "\"\"\"First line.\n    indented\n    more\"\"\"") =
      some (docstringNormalizeSpec (pyDropLastN 3 (pyDropN 3
        (pyStrip (str "\"\"\"First line.\n    indented\n    more\"\"\""))))) :=
  c8_triple_quoted_docstring _ (by decide) (by decide) (by decide)

/-! ## C3: statement docstrings from comment trivia -/

theorem isSpaceTab_isPySpace {c : Char} (h : isSpaceTab c = true) :
    isPySpace c = true := by
  simp only [isSpaceTab, Bool.decide_or, Bool.or_eq_true, decide_eq_true_eq] at h
  rcases h with h | h <;> simp [isPySpace, h]

theorem all_spaceTab_pySpace {l : Str} (h : l.all isSpaceTab = true) :
    l.all isPySpace = true := by
  rw [List.all_eq_true] at h ⊢
  exact fun c hc => isSpaceTab_isPySpace (h c hc)

theorem nl_not_mem_spaceTab {l : Str} (h : l.all isSpaceTab = true) :
    '\n' ∉ l := by
  intro hm
  rw [List.all_eq_true] at h
  have := h _ hm
  simp [isSpaceTab] at this

theorem takeWhile_append_all {p : Char → Bool} {l1 : Str} (l2 : Str)
    (h : l1.all p = true) :
    (l1 ++ l2).takeWhile p = l1 ++ l2.takeWhile p := by
  induction l1 with
  | nil => simp
  | cons c cs ih =>
    simp only [List.all_cons, Bool.and_eq_true] at h
    simp [List.takeWhile_cons, h.1, ih h.2]

theorem dropWhile_all {p : Char → Bool} {l : Str} (h : l.all p = true) :
    l.dropWhile p = [] := by
  induction l with
  | nil => simp
  | cons c cs ih =>
    simp only [List.all_cons, Bool.and_eq_true] at h
    simp [List.dropWhile_cons, h.1, ih h.2]

theorem pyStrip_all_space {l : Str} (h : l.all isPySpace = true) :
    pyStrip l = [] := by
  rw [pyStrip, pyLstrip, dropWhile_all h]
  rfl

/-- A string fixed by the right strip and non-empty reverses to a
non-space head. -/
theorem rstrip_fix_reverse {t : Str} (h : pyRstrip t = t) (hne : t ≠ []) :
    ∃ c tr, t.reverse = c :: tr ∧ isPySpace c = false := by
  have hrev : t.reverse.dropWhile isPySpace = t.reverse := by
    have := congrArg List.reverse h
    rwa [pyRstrip, List.reverse_reverse] at this
  rcases hr : t.reverse with _ | ⟨c, tr⟩
  · exact absurd (by simpa using congrArg List.reverse hr) hne
  · rw [hr] at hrev
    exact ⟨c, tr, rfl, dropWhile_head_not hrev⟩

theorem splitOnChar_no_sep {sep : Char} {l : Str} (h : sep ∉ l) :
    splitOnChar sep l = [l] := by
  induction l with
  | nil => rfl
  | cons c cs ih =>
    simp only [List.mem_cons, not_or] at h
    simp [splitOnChar, ih h.2, Ne.symm h.1, h.1]

theorem splitOnChar_append_sep {sep : Char} {a : Str} (b : Str) (h : sep ∉ a) :
    splitOnChar sep (a ++ sep :: b) = a :: splitOnChar sep b := by
  induction a with
  | nil =>
    rcases hS : splitOnChar sep b with _ | ⟨r, rs⟩
    · exact absurd hS (splitOnChar_ne_nil _ _)
    · simp [splitOnChar, hS]
  | cons c cs ih =>
    simp only [List.mem_cons, not_or] at h
    simp [splitOnChar, ih h.2, h.1, Ne.symm h.1]

/-- The strip of an indented comment line: the leading whitespace
disappears, the trailing part keeps only its right strip. -/
theorem pyStrip_indent_hash {ind : Str} (rest : Str)
    (hi : ind.all isSpaceTab = true) :
    pyStrip (ind ++ '#' :: rest) = '#' :: pyRstrip rest := by
  rw [pyStrip, pyLstrip_ws_append _ (all_spaceTab_pySpace hi),
    pyLstrip_cons_neg _ (by decide), pyRstrip_cons_neg _ (by decide)]

/-- Both strips fix a stripped string. -/
theorem pyStrip_fix_parts {t : Str} (h : pyStrip t = t) :
    pyLstrip t = t ∧ pyRstrip t = t := by
  have hsuff : pyLstrip t <:+ t := List.dropWhile_suffix _
  have hlen2 : t.length ≤ (pyLstrip t).length := by
    conv_lhs => rw [← h]
    calc (pyStrip t).length
        = ((pyLstrip t).reverse.dropWhile isPySpace).length := by
          simp [pyStrip, pyRstrip]
      _ ≤ (pyLstrip t).reverse.length := (List.dropWhile_suffix _).length_le
      _ = (pyLstrip t).length := List.length_reverse _
  have hL : pyLstrip t = t :=
    List.IsSuffix.eq_of_length hsuff
      (Nat.le_antisymm (List.IsSuffix.length_le hsuff) hlen2)
  refine ⟨hL, ?_⟩
  have := h
  rw [pyStrip, hL] at this
  exact this

/-- `prepare_docstring` on a single statement-marked comment line. -/
theorem prepare_statement_comment {t : Str} (ht : pyStrip t = t)
    (htnl : '\n' ∉ t) :
    prepare_docstring ('#' :: ':' :: t) = some t := by
  obtain ⟨hL, hR⟩ := pyStrip_fix_parts ht
  have hs : pyStrip ('#' :: ':' :: t) = '#' :: ':' :: t := by
    rw [pyStrip_cons_neg _ (by decide), pyRstrip_cons_neg _ (by decide), hR]
  have hsplit : splitOnChar '\n' ('#' :: ':' :: t) = ['#' :: ':' :: t] :=
    splitOnChar_no_sep (by simp [htnl])
  have hsw : startsWith ['#'] ('#' :: ':' :: t) = true := by simp [startsWith]
  have hsw2 : startsWith ['#', ':'] ('#' :: ':' :: t) = true := by
    simp [startsWith]
  unfold prepare_docstring
  simp only [str_hash_eq, str_hashcolon_eq, hs, hsw, if_true, hsplit,
    List.map_cons, List.map_nil, hsw2, List.drop_succ_cons, List.drop_zero, hL]
  show some (pyStrip (joinNL [t])) = some t
  rw [show joinNL [t] = t from rfl, ht]

/-- The comment-run scan over the reversed line list
`[indentation, comment line, empty]`: the comment line is collected and
classifies the run by its marker. -/
theorem hashtagScan_c3 {ind2 mid m : Str} (hi2 : ind2.all isSpaceTab = true)
    (hms : pyStrip mid = '#' :: m) :
    hashtagScan [ind2, mid, []] [] none =
      (['#' :: m],
       if startsWith [':'] m = true then some DocType.statement
       else some DocType.block) := by
  have hstrip2 : pyStrip ind2 = [] := pyStrip_all_space (all_spaceTab_pySpace hi2)
  have hnil : pyStrip ([] : Str) = [] := rfl
  by_cases hcol : startsWith [':'] m = true <;>
    simp [hashtagScan, hstrip2, hms, hnil, str_hash_eq, str_hashcolon_eq,
      startsWith, hcol]

theorem splitOnChar_cons_sep (sep : Char) (x : Str) :
    splitOnChar sep (sep :: x) = [] :: splitOnChar sep x := by
  rcases h : splitOnChar sep x with _ | ⟨r, rs⟩
  · exact absurd h (splitOnChar_ne_nil _ _)
  · simp [splitOnChar, h]

set_option maxHeartbeats 2000000 in
/-- C3: the statement-docstring rule, on the single-comment-line trivia
shapes the spec describes.  First conjunct: a comment line with the
statement marker directly above the assignment (one newline between the
comment and the statement) yields the comment text with the marker
removed.  Second conjunct: a comment line with only the generic marker
yields no statement docstring.  Third conjunct: a statement-marked
comment separated from the statement by a blank line (two newlines)
yields no statement docstring. -/
theorem c3_statement_docstring_marker (tok ln : Nat) (v t u ind1 ind2 : Str)
    (ht : pyStrip t = t) (htne : t ≠ []) (htnl : '\n' ∉ t)
    (hu : pyRstrip u = u) (hunl : '\n' ∉ u)
    (hucolon : startsWith [':'] u = false)
    (hi1 : ind1.all isSpaceTab = true) (hi2 : ind2.all isSpaceTab = true) :
    get_statement_docstring
      (PyTree.leaf tok v ('\n' :: (ind1 ++ '#' :: ':' :: (t ++ '\n' :: ind2))) ln)
      [] = some t ∧
    get_statement_docstring
      (PyTree.leaf tok v ('\n' :: (ind1 ++ '#' :: (u ++ '\n' :: ind2))) ln)
      [] = none ∧
    get_statement_docstring
      (PyTree.leaf tok v
        ('\n' :: (ind1 ++ '#' :: ':' :: (t ++ '\n' :: '\n' :: ind2))) ln)
      [] = none := by
  obtain ⟨hLt, hRt⟩ := pyStrip_fix_parts ht
  obtain ⟨tc, tr, htrev, htc⟩ := rstrip_fix_reverse hRt htne
  have hip2 : ind2.all isPySpace = true := all_spaceTab_pySpace hi2
  have hnl1 : '\n' ∉ ind1 := nl_not_mem_spaceTab hi1
  have hnl2 : '\n' ∉ ind2 := nl_not_mem_spaceTab hi2
  have hall2rev : ind2.reverse.all isPySpace = true := by
    rw [List.all_eq_true] at hip2 ⊢
    exact fun c hc => hip2 c (List.mem_reverse.mp hc)
  have hpref : ∀ (P : Str), P ≠ [] →
      get_most_recent_pfx (PyTree.leaf tok v P ln) [] = P := by
    intro P hP
    simp [get_most_recent_pfx, pfxAtRev, nodeAt, PyTree.pfx, hP]
  have htw_t : ∀ X : Str, (t.reverse ++ X).takeWhile isPySpace = [] := by
    intro X
    rw [htrev]
    simp [List.takeWhile_cons, htc]
  have hcnt0 : List.count '\n' ind2.reverse = 0 :=
    List.count_eq_zero.mpr (by simp [hnl2])
  have hcnt1 : countChar '\n' (ind2.reverse ++ ['\n']) = 1 := by
    simp [countChar, List.count_append, hcnt0]
  refine ⟨?_, ?_, ?_⟩
  · -- statement marker, directly above
    have hPne : ('\n' :: (ind1 ++ '#' :: ':' :: (t ++ '\n' :: ind2))) ≠ [] := by
      simp
    have hmidnl : '\n' ∉ ind1 ++ '#' :: ':' :: t := by
      simp [hnl1, htnl]
    have hsplit : splitOnChar '\n'
        ('\n' :: (ind1 ++ '#' :: ':' :: (t ++ '\n' :: ind2)))
        = [[], ind1 ++ '#' :: ':' :: t, ind2] := by
      have hshape : '\n' :: (ind1 ++ '#' :: ':' :: (t ++ '\n' :: ind2))
          = '\n' :: ((ind1 ++ '#' :: ':' :: t) ++ '\n' :: ind2) := by
        simp [List.append_assoc]
      rw [hshape, splitOnChar_cons_sep, splitOnChar_append_sep _ hmidnl,
        splitOnChar_no_sep hnl2]
    have hms : pyStrip (ind1 ++ '#' :: ':' :: t) = '#' :: (':' :: t) := by
      rw [pyStrip_indent_hash _ hi1, pyRstrip_cons_neg _ (by decide), hRt]
    have hscan := hashtagScan_c3 (m := ':' :: t) hi2 hms
    have hcol : startsWith [':'] (':' :: t) = true := by simp [startsWith]
    have hhash : get_hashtag_docstring_from_pfx
        (PyTree.leaf tok v
          ('\n' :: (ind1 ++ '#' :: ':' :: (t ++ '\n' :: ind2))) ln) []
        = (some t, some DocType.statement) := by
      unfold get_hashtag_docstring_from_pfx
      rw [hpref _ hPne]
      simp [hsplit, hscan, hcol, joinNL, prepare_statement_comment ht htnl]
    have hws : (('\n' :: (ind1 ++ '#' :: ':' :: (t ++ '\n' :: ind2))).reverse.takeWhile
        isPySpace) = ind2.reverse ++ ['\n'] := by
      have hrev : ('\n' :: (ind1 ++ '#' :: ':' :: (t ++ '\n' :: ind2))).reverse
          = ind2.reverse ++ '\n' ::
              (t.reverse ++ ':' :: '#' :: (ind1.reverse ++ ['\n'])) := by
        simp
      rw [hrev, takeWhile_append_all _ hall2rev, List.takeWhile_cons]
      simp [show isPySpace '\n' = true from rfl, htw_t _]
    unfold get_statement_docstring
    rw [hpref _ hPne]
    simp only [hws, hcnt1, hhash]
    simp
  · -- generic marker: classified as block, discarded for statements
    have hPne : ('\n' :: (ind1 ++ '#' :: (u ++ '\n' :: ind2))) ≠ [] := by simp
    have hmidnl : '\n' ∉ ind1 ++ '#' :: u := by simp [hnl1, hunl]
    have hsplit : splitOnChar '\n' ('\n' :: (ind1 ++ '#' :: (u ++ '\n' :: ind2)))
        = [[], ind1 ++ '#' :: u, ind2] := by
      have hshape : '\n' :: (ind1 ++ '#' :: (u ++ '\n' :: ind2))
          = '\n' :: ((ind1 ++ '#' :: u) ++ '\n' :: ind2) := by
        simp [List.append_assoc]
      rw [hshape, splitOnChar_cons_sep, splitOnChar_append_sep _ hmidnl,
        splitOnChar_no_sep hnl2]
    have hms : pyStrip (ind1 ++ '#' :: u) = '#' :: u := by
      rw [pyStrip_indent_hash _ hi1, hu]
    have hscan := hashtagScan_c3 (m := u) hi2 hms
    have hhash : (get_hashtag_docstring_from_pfx
        (PyTree.leaf tok v ('\n' :: (ind1 ++ '#' :: (u ++ '\n' :: ind2))) ln)
        []).2 = some DocType.block := by
      unfold get_hashtag_docstring_from_pfx
      rw [hpref _ hPne]
      simp only [hsplit, List.reverse_cons, List.reverse_nil, List.nil_append,
        List.cons_append, List.append_nil, List.singleton_append]
      rw [hscan]
      simp [hucolon]
    have htw_u : ∀ X : Str, (u.reverse ++ '#' :: X).takeWhile isPySpace = [] := by
      intro X
      rcases hur : u.reverse with _ | ⟨c, ur⟩
      · simp [List.takeWhile_cons, show isPySpace '#' = false from rfl]
      · have hne : u ≠ [] := by
          intro h; rw [h] at hur; simp at hur
        obtain ⟨c', ur', h1, h2⟩ := rstrip_fix_reverse hu hne
        rw [hur] at h1
        injection h1 with e1 _
        cases e1
        simp [List.takeWhile_cons, h2]
    have hws : (('\n' :: (ind1 ++ '#' :: (u ++ '\n' :: ind2))).reverse.takeWhile
        isPySpace) = ind2.reverse ++ ['\n'] := by
      have hrev : ('\n' :: (ind1 ++ '#' :: (u ++ '\n' :: ind2))).reverse
          = ind2.reverse ++ '\n' :: (u.reverse ++ '#' :: (ind1.reverse ++ ['\n'])) := by
        simp
      rw [hrev, takeWhile_append_all _ hall2rev, List.takeWhile_cons]
      simp [show isPySpace '\n' = true from rfl, htw_u _]
    rcases hpair : get_hashtag_docstring_from_pfx
        (PyTree.leaf tok v ('\n' :: (ind1 ++ '#' :: (u ++ '\n' :: ind2))) ln)
        [] with ⟨ds, dt⟩
    rw [hpair] at hhash
    simp only at hhash
    unfold get_statement_docstring
    rw [hpref _ hPne]
    simp only [hws, hcnt1, hpair]
    simp [hhash]
  · -- blank line between comment and statement: two newlines
    have hPne : ('\n' :: (ind1 ++ '#' :: ':' :: (t ++ '\n' :: '\n' :: ind2))) ≠ [] := by
      simp
    have hws : (('\n' :: (ind1 ++ '#' :: ':' ::
        (t ++ '\n' :: '\n' :: ind2))).reverse.takeWhile isPySpace)
        = ind2.reverse ++ ['\n', '\n'] := by
      have hrev : ('\n' :: (ind1 ++ '#' :: ':' :: (t ++ '\n' :: '\n' :: ind2))).reverse
          = ind2.reverse ++ '\n' :: '\n' ::
              (t.reverse ++ ':' :: '#' :: (ind1.reverse ++ ['\n'])) := by
        simp
      rw [hrev, takeWhile_append_all _ hall2rev, List.takeWhile_cons]
      simp only [show isPySpace '\n' = true from rfl, if_true, List.takeWhile_cons]
      simp [htw_t _]
    have hcnt2 : countChar '\n' (ind2.reverse ++ ['\n', '\n']) = 2 := by
      simp [countChar, List.count_append, hcnt0]
    unfold get_statement_docstring
    rw [hpref _ hPne]
    simp only [hws, hcnt2]
    simp

/-- C3 witness: the comment `#:doc` (with two-space indentation) directly
above a statement, the generic comment `# plain`, and a `#:doc` comment
separated by a blank line. -/
theorem c3_witness :
    get_statement_docstring
      (PyTree.leaf 1 (str "x")
        ('\n' :: (str "  " ++ '#' :: ':' :: (str "doc" ++ '\n' :: str "  "))) 5)
      [] = some (str "doc") ∧
    get_statement_docstring
      (PyTree.leaf 1 (str "x")
        ('\n' :: (str "  " ++ '#' :: (str " plain" ++ '\n' :: str "  "))) 5)
      [] = none ∧
    get_statement_docstring
      (PyTree.leaf 1 (str "x")
        ('\n' :: (str "  " ++ '#' :: ':' ::
          (str "doc" ++ '\n' :: '\n' :: str "  "))) 5)
      [] = none :=
  c3_statement_docstring_marker 1 5 (str "x") (str "doc") (str " plain")
    (str "  ") (str "  ") (by decide) (by decide) (by decide) (by decide)
    (by decide) (by decide) (by decide) (by decide)

/-! ## C2: metaclass promotion in `parse_classdef` -/

/-- The member loop is sequential: a run over `pre ++ post` is the run
over `pre` continued over `post`. -/
theorem pcm_gen_append_ok
    (pd : PyTree → List Nat → Except PErr (List Entity × Option Entity))
    (sp : List Nat) (pre : List PyTree) :
    ∀ (post : List PyTree) (i : Nat) (mc : Option Expression)
      (ms : List Entity) (mc' : Option Expression) (ms' : List Entity),
    parse_class_members_gen pd sp i pre mc ms = Except.ok (mc', ms') →
    parse_class_members_gen pd sp i (pre ++ post) mc ms =
      parse_class_members_gen pd sp (i + pre.length) post mc' ms' := by
  induction pre with
  | nil =>
    intro post i mc ms mc' ms' h
    simp only [parse_class_members_gen] at h
    injection h with h
    injection h with h1 h2
    subst h1; subst h2
    simp
  | cons child rest ih =>
    intro post i mc ms mc' ms' h
    simp only [parse_class_members_gen, List.cons_append] at h ⊢
    rcases hst : class_member_step pd sp i child mc ms with e | ⟨mc2, ms2⟩
    · rw [hst] at h
      simp at h
    · rw [hst] at h
      show parse_class_members_gen pd sp (i + 1) (rest ++ post) mc2 ms2 = _
      rw [ih post (i + 1) mc2 ms2 mc' ms' h]
      have harith : i + 1 + rest.length = i + (rest.length + 1) := by omega
      simp [harith]

/-- Once the metaclass is set, a step never changes it and only appends
to the member list. -/
theorem class_member_step_some
    {pd : PyTree → List Nat → Except PErr (List Entity × Option Entity)}
    {sp : List Nat} {i : Nat} {child : PyTree} {e : Expression}
    {ms : List Entity} {mc2 : Option Expression} {ms2 : List Entity}
    (h : class_member_step pd sp i child (some e) ms = Except.ok (mc2, ms2)) :
    mc2 = some e ∧ ∃ extra, ms2 = ms ++ extra := by
  cases child with
  | leaf _ _ _ _ =>
    simp only [class_member_step] at h
    injection h with h
    injection h with h1 h2
    exact ⟨h1.symm, [], by simp [← h2]⟩
  | node t cc =>
    simp only [class_member_step] at h
    rcases hpd : pd (PyTree.node t cc) (sp ++ [i]) with e' | ⟨created, ret⟩ <;>
      rw [hpd] at h
    · cases h
    · simp only at h
      injection h with h
      injection h with h1 h2
      exact ⟨h1.symm, created, h2.symm⟩

/-- Once the metaclass is set, the rest of the member loop keeps it and
only appends members. -/
theorem pcm_gen_mc_persists
    (pd : PyTree → List Nat → Except PErr (List Entity × Option Entity))
    (sp : List Nat) (post : List PyTree) :
    ∀ (i : Nat) (e : Expression) (ms : List Entity)
      (mcF : Option Expression) (msF : List Entity),
    parse_class_members_gen pd sp i post (some e) ms = Except.ok (mcF, msF) →
    mcF = some e ∧ ∃ extra, msF = ms ++ extra := by
  induction post with
  | nil =>
    intro i e ms mcF msF h
    simp only [parse_class_members_gen] at h
    injection h with h
    injection h with h1 h2
    exact ⟨h1.symm, [], by simp [← h2]⟩
  | cons child rest ih =>
    intro i e ms mcF msF h
    simp only [parse_class_members_gen] at h
    rcases hst : class_member_step pd sp i child (some e) ms with er | ⟨mc2, ms2⟩ <;>
      rw [hst] at h
    · cases h
    · simp only at h
      obtain ⟨hmc2, extra1, hms2⟩ := class_member_step_some hst
      subst hmc2
      obtain ⟨hmcF, extra2, hmsF⟩ := ih (i + 1) e ms2 mcF msF h
      exact ⟨hmcF, extra1 ++ extra2, by rw [hmsF, hms2, List.append_assoc]⟩

/-- C2: for every class whose header carries no `metaclass=` keyword and
whose body contains a plain assignment statement named `__metaclass__`
(a suite child whose declaration parse returns the corresponding Data
entity as its Python return value, i.e. the last created entity), the
member loop does rebind its loop-local metaclass to the right-hand-side
Expression of the assignment and does remove the Data entity from the
member sequence, but the Class returned by `parse_classdef` still
carries the header metaclass, here None: the rebound local is never
written back into the object, so the promotion the claim (and the spec)
describes never reaches the returned Class. -/
theorem c2_metaclass_assignment_not_promoted
    (fuel : Nat) (fn : Str) (root node : PyTree) (path : List Nat)
    (decorators : Option (List Decorator))
    (c1 : PyTree) (name : Str) (bases : List Expression)
    (si : Nat) (suiteN : PyTree) (docstring : Option Str)
    (pre post : List PyTree) (kt : Nat) (kcc : List PyTree)
    (ms1 cpre : List Entity) (dl : Location) (dd : Option Str)
    (de : Expression) (mcF : Option Expression) (msF : List Entity)
    (hc1 : node.children.get? 1 = some c1)
    (hname : c1.value? = some name)
    (hhdr : classHeaderScan node.children = Except.ok (none, bases))
    (hsuite : pyFindIdx (fun x => x.typ = syms.suite) node.children
      = some (si, suiteN))
    (hdoc : get_docstring_from_first_node root suiteN (path ++ [si]) false
      = Except.ok docstring)
    (hkids : suiteN.children = pre ++ PyTree.node kt kcc :: post)
    (hpre : parse_class_members fuel fn root (path ++ [si]) 0 pre none []
      = Except.ok (none, ms1))
    (hstmt : parse_declaration fuel fn root (PyTree.node kt kcc)
      (path ++ [si] ++ [pre.length]) none
      = Except.ok (cpre ++ [Entity.data dl (str "__metaclass__") dd de],
          some (Entity.data dl (str "__metaclass__") dd de)))
    (hpost : parse_class_members fuel fn root (path ++ [si])
      (pre.length + 1) post (some de) (ms1 ++ cpre)
      = Except.ok (mcF, msF)) :
    mcF = some de ∧ (∃ extra, msF = ms1 ++ cpre ++ extra) ∧
    parse_classdef fuel fn root node path decorators =
      Except.ok ([Entity.cls ⟨fn, node.lineno?⟩ name docstring bases
          none decorators msF],
        some (Entity.cls ⟨fn, node.lineno?⟩ name docstring bases
          none decorators msF)) := by
  obtain ⟨hmcF, extra, hmsF⟩ := pcm_gen_mc_persists
    (fun n p => parse_declaration fuel fn root n p none) (path ++ [si]) post
    (pre.length + 1) de (ms1 ++ cpre) mcF msF hpost
  subst hmcF
  refine ⟨rfl, ⟨extra, by rw [hmsF, List.append_assoc]⟩, ?_⟩
  have hstep : class_member_step
      (fun n p => parse_declaration fuel fn root n p none) (path ++ [si])
      pre.length (PyTree.node kt kcc) none ms1
      = Except.ok (some de, ms1 ++ cpre) := by
    simp only [class_member_step]
    rw [hstmt]
    simp only [if_pos rfl]
    rw [← List.append_assoc, List.dropLast_concat]
    simp only [if_true]
  have hloop : parse_class_members_gen
      (fun n p => parse_declaration fuel fn root n p none) (path ++ [si]) 0
      (pre ++ PyTree.node kt kcc :: post) none []
      = Except.ok (some de, msF) := by
    rw [pcm_gen_append_ok _ _ pre (PyTree.node kt kcc :: post) 0 none []
      none ms1 hpre]
    simp only [Nat.zero_add, parse_class_members_gen]
    rw [hstep]
    exact hpost
  show parse_classdef_gen
    (fun n p => parse_declaration fuel fn root n p none)
    fn root node path decorators = _
  simp only [parse_classdef_gen, hc1, hname, hhdr, hsuite, hdoc, hkids, hloop]

/-- Body of the `__metaclass__ = MC` statement of the C2 example. -/
def c2McKids : List PyTree :=
  [PyTree.node 290 [PyTree.leaf 1 (str "__metaclass__") (str "") 2,
    PyTree.leaf 22 (str "=") (str " ") 2,
    PyTree.leaf 1 (str "MC") (str " ") 2],
   PyTree.leaf 4 (str "\n") (str "") 2]

/-- The `w = 3` statement of the C2 example. -/
def c2WStmt : PyTree :=
  PyTree.node 317 [PyTree.node 290 [PyTree.leaf 1 (str "w") (str "    ") 3,
    PyTree.leaf 22 (str "=") (str " ") 3,
    PyTree.leaf 2 (str "3") (str " ") 3],
   PyTree.leaf 4 (str "\n") (str "") 3]

/-- Suite of the C2 example class body. -/
def c2Suite : PyTree :=
  PyTree.node 325 [PyTree.leaf 4 (str "\n") (str "") 1,
    PyTree.leaf 5 (str "    ") (str "") 2,
    PyTree.node 317 c2McKids, c2WStmt, PyTree.leaf 6 (str "") (str "") 4]

/-- The classdef node of the C2 example. -/
def c2Cls : PyTree :=
  PyTree.node 269 [PyTree.leaf 1 (str "class") (str "") 1,
    PyTree.leaf 1 (str "D") (str " ") 1,
    PyTree.leaf 11 (str ":") (str "") 1, c2Suite]

/-- The lib2to3 tree of `class D` with `__metaclass__ = MC` and `w = 3`
in the body. -/
def c2Root : PyTree :=
  PyTree.node 256 [c2Cls, PyTree.leaf 0 (str "") (str "") 4]

/-- C2 witness: on the example class the loop-local metaclass ends as
`MC` and the `__metaclass__` Data entity is gone from the members, yet
the returned Class has no metaclass. -/
theorem c2_witness :
    (some (Expression.mk (str "MC")) : Option Expression) =
      some (Expression.mk (str "MC")) ∧
    (∃ extra, [Entity.data ⟨str "test.py", some 3⟩ (str "w") none
        ⟨str "3"⟩] = ([] : List Entity) ++ ([] : List Entity) ++ extra) ∧
    parse_classdef 10 (str "test.py") c2Root c2Cls [0] none =
      Except.ok ([Entity.cls ⟨str "test.py", some 1⟩ (str "D") none []
          none none
          [Entity.data ⟨str "test.py", some 3⟩ (str "w") none ⟨str "3"⟩]],
        some (Entity.cls ⟨str "test.py", some 1⟩ (str "D") none []
          none none
          [Entity.data ⟨str "test.py", some 3⟩ (str "w") none
            ⟨str "3"⟩])) :=
  c2_metaclass_assignment_not_promoted 10 (str "test.py") c2Root c2Cls [0] none
    (PyTree.leaf 1 (str "D") (str " ") 1) (str "D") [] 3 c2Suite none
    [PyTree.leaf 4 (str "\n") (str "") 1, PyTree.leaf 5 (str "    ") (str "") 2]
    [c2WStmt, PyTree.leaf 6 (str "") (str "") 4] 317 c2McKids
    [] [] ⟨str "test.py", some 2⟩ none ⟨str "MC"⟩ (some ⟨str "MC"⟩)
    [Entity.data ⟨str "test.py", some 3⟩ (str "w") none ⟨str "3"⟩]
    (by rfl) (by rfl) (by rfl) (by rfl) (by rfl) (by rfl) (by rfl)
    (by rfl) (by rfl)
